import Mathlib

/-!
Shallow embedding of the song reconciliation / filtering / templating core of
`gmusicapi_wrapper` (file `gmusicapi_wrapper/utils.py`, with the constant
tables from `gmusicapi_wrapper/constants.py`), together with proofs settling
the specification claims about it.

Modelling conventions:
* Python strings are modelled as Lean `String` / `List Char`; the character
  classes of Python's regexes (`\w`, `\s`, `\d`, `str.lower`) are modelled on
  their ASCII fragment, which is the fragment exercised by the code's own
  tests and by every claim.
* Python exceptions are modelled by `Except Unit`: a raising call is
  `Except.error ()`, a returning call is `Except.ok`.
* The mutagen tag reader (`mutagen.File(path, easy=True)`) is an external
  collaborator; it is modelled by an environment `env : String → Option Tags`
  where `none` models `mutagen.MutagenError` being raised for that path.
* Recursions that walk a string by a non-structural amount (regex scans,
  `str.replace`, the `os.path.split` loop) are written with an explicit fuel
  argument initialised to the input length, which strictly bounds the number
  of iterations (each iteration consumes at least one character / shortens
  the path), so the fuel case is never reached on the initial call.
-/

namespace GmwSpec

/-- ASCII fragment of Python's `\s` class: space, tab, newline, carriage
return, vertical tab, form feed. -/
def isSpaceCh (c : Char) : Bool :=
  c = ' ' || c = '\t' || c = '\n' || c = '\r' || c = '\x0b' || c = '\x0c'

/-- ASCII fragment of Python's `\w` class: alphanumeric or underscore. -/
def isWordCh (c : Char) : Bool :=
  c.isAlphanum || c = '_'

/-- ASCII fragment of Python's `str.lower` on a single character, written as
an explicit table. -/
def toLowerCh (c : Char) : Char :=
  match c with
  | 'A' => 'a' | 'B' => 'b' | 'C' => 'c' | 'D' => 'd' | 'E' => 'e'
  | 'F' => 'f' | 'G' => 'g' | 'H' => 'h' | 'I' => 'i' | 'J' => 'j'
  | 'K' => 'k' | 'L' => 'l' | 'M' => 'm' | 'N' => 'n' | 'O' => 'o'
  | 'P' => 'p' | 'Q' => 'q' | 'R' => 'r' | 'S' => 's' | 'T' => 't'
  | 'U' => 'u' | 'V' => 'v' | 'W' => 'w' | 'X' => 'x' | 'Y' => 'y'
  | 'Z' => 'z'
  | c => c

/-- Python `str.lower` on a string (ASCII fragment). -/
def lowerL (s : List Char) : List Char := s.map toLowerCh

/-!
### The metadata normalizer (`_normalize_metadata`)

Each regex substitution of the Python function is embedded as one function on
`List Char`, in the order the source applies them.
-/

/-- One scan step of `re.sub(r'\/\s*\d+', '', s)`: at a `'/'`, the regex
matches the maximal following whitespace run provided at least one digit
follows it (backtracking cannot help, since fewer spaces put a space where a
digit is required), and the match extends over the maximal digit run.
The fuel starts at the length of the string and each step consumes at least
one character, so the `0` case is never reached. -/
def rstF : Nat → List Char → List Char
  | 0, s => s
  | fuel + 1, s =>
    match s with
    | [] => []
    | c :: rest =>
      if c = '/' then
        let r2 := rest.dropWhile isSpaceCh
        if (r2.takeWhile Char.isDigit).isEmpty then
          c :: rstF fuel rest
        else
          rstF fuel (r2.dropWhile Char.isDigit)
      else
        c :: rstF fuel rest

/-- Step `re.sub(r'\/\s*\d+', '', s)`: remove every "/<spaces><digits>" group. -/
def removeSlashTotal (s : List Char) : List Char := rstF s.length s

/-- Step `re.sub(r'^0+([0-9]+)', r'\1', s)`: anchored, so at most one match.  If
the string starts with a zero run followed by a further digit run, the match
is replaced by the digit run (dropping the zeros); if the zero run is the
only leading digit material and has length at least two, backtracking makes
the group capture the last zero, collapsing the run to a single `'0'`. -/
def stripLeadingZeros (s : List Char) : List Char :=
  let zs := s.takeWhile (fun c => c = '0')
  let r := s.dropWhile (fun c => c = '0')
  if zs.isEmpty then s
  else if (r.headD ' ').isDigit then r
  else if 2 ≤ zs.length then '0' :: r
  else s

/-- Step `re.sub(r'^\d+\.+', '', s)`: anchored; a leading digit run followed by at
least one dot is removed together with the maximal dot run. -/
def stripDotTrack (s : List Char) : List Char :=
  let d := s.takeWhile Char.isDigit
  let r := s.dropWhile Char.isDigit
  if d.isEmpty then s
  else if r.headD ' ' = '.' then r.dropWhile (fun c => c = '.')
  else s

/-- Step `re.sub(r'[^\w\s]', '', s)`: keep only word characters and whitespace. -/
def removeNonWord (s : List Char) : List Char :=
  s.filter (fun c => isWordCh c || isSpaceCh c)

/-- Step `re.sub(r'\s+', ' ', s)`: each maximal whitespace run becomes a single
space. -/
def collapseSpaces : List Char → List Char
  | [] => []
  | [c] => if isSpaceCh c then [' '] else [c]
  | c :: d :: rest =>
    if isSpaceCh c && isSpaceCh d then collapseSpaces (d :: rest)
    else (if isSpaceCh c then ' ' else c) :: collapseSpaces (d :: rest)

/-- Step `re.sub(r'^\s+', '', s)`: drop the leading whitespace run. -/
def stripLeadingWs (s : List Char) : List Char := s.dropWhile isSpaceCh

/-- Step `re.sub(r'\s+$', '', s)`: drop the trailing whitespace run. -/
def stripTrailingWs (s : List Char) : List Char :=
  (s.reverse.dropWhile isSpaceCh).reverse

/-- Step `re.sub(r'^the\s+', '', s, re.I)`.  Note the source passes `re.I` as the
positional `count` argument of `re.sub` (count = 2), not as flags; the
pattern is anchored and not multiline, so it still fires at most once, and
the input is already lower-cased, so case-insensitivity is moot.  The `\s+`
is greedy: "the" and the whole following whitespace run are dropped. -/
def stripLeadingThe (s : List Char) : List Char :=
  match s with
  | a :: b :: d :: e :: rest =>
    if a = 't' ∧ b = 'h' ∧ d = 'e' ∧ isSpaceCh e then
      (e :: rest).dropWhile isSpaceCh
    else s
  | _ => s

/-- The function `_normalize_metadata` on a character list: the nine steps of the source,
in source order. -/
def normalizeL (s : List Char) : List Char :=
  stripLeadingThe (stripTrailingWs (stripLeadingWs (collapseSpaces
    (removeNonWord (stripDotTrack (stripLeadingZeros
      (removeSlashTotal (lowerL s))))))))

/-- The function `_normalize_metadata`: normalize a metadata value to improve match
accuracy (the `str()` coercion is implicit: values are modelled as strings).
-/
def normalize_metadata (s : String) : String := ⟨normalizeL s.data⟩

/-!
### The collection differ (`compare_song_collections`)

A song handed to `compare_song_collections` is either a Google Music song
dict (string-valued mapping) or a local filepath.  Reading tags from a
filepath (`mutagen.File(filepath, easy=True)`) is an external capability,
modelled by an environment mapping a path to its easy-tag dict (each tag a
list of values) or to `none` when `mutagen.MutagenError` is raised.
-/

/-- A Google Music song dict: field name to scalar (string) value.  Python
dicts have unique keys; association lists with `List.lookup` model them. -/
abbrev SongDict := List (String × String)

/-- The easy-tag dict produced by mutagen for a local file: field name to
list of tag values. -/
abbrev Tags := List (String × List String)

/-- The tag-reading environment: `none` models `mutagen.MutagenError`. -/
abbrev TagEnv := String → Option Tags

/-- An element of a collection passed to `compare_song_collections`. -/
inductive Song where
  | dict : SongDict → Song
  | path : String → Song
deriving DecidableEq

/-- The function `_get_mutagen_metadata`: read tags; on `MutagenError` a warning is
logged and the exception is re-raised (the `raise` in the `except` block),
modelled as `Except.error ()`. -/
def get_mutagen_metadata (env : TagEnv) (filepath : String) :
    Except Unit Tags :=
  match env filepath with
  | none => .error ()
  | some tags => .ok tags

/-- The function `_mutagen_fields_to_single_value`: keep fields with a nonempty value
list, collapsed to their first value. -/
def mutagen_fields_to_single_value (metadata : Tags) : SongDict :=
  metadata.filterMap (fun kv =>
    match kv.2 with
    | [] => none
    | v :: _ => some (kv.1, v))

/-- The function `_normalize_song`: a dict is left untouched; a filepath is read and
collapsed.  A read failure propagates. -/
def normalize_song (env : TagEnv) : Song → Except Unit SongDict
  | .dict d => .ok d
  | .path p => do
    let tags ← get_mutagen_metadata env p
    pure (mutagen_fields_to_single_value tags)

/-- Python truthiness of `field in song and song[field]` for a string-valued
dict: the field is present with a nonempty value. -/
def fieldTruthy (song : SongDict) (field : String) : Bool :=
  match song.lookup field with
  | none => false
  | some v => !(v = "")

/-- The function `_filter_comparison_fields`: the comparison fields present and nonempty,
in the fixed source order. -/
def filter_comparison_fields (song : SongDict) : List String :=
  ["artist", "album", "title", "tracknumber", "track_number"].filter
    (fieldTruthy song)

/-- The inner `compare_song_collections.gather_field_values`: the tuple of normalized
values of the comparison fields. -/
def gather_field_values (song : SongDict) : List String :=
  (filter_comparison_fields song).map
    (fun field => normalize_metadata ((song.lookup field).getD ""))

/-- The function `compare_song_collections`: build the destination key set, then keep the
source songs whose key is absent from it.  Either side raises
(`Except.error`) as soon as a local song's tags cannot be read. -/
def compare_song_collections (env : TagEnv) (src_songs dst_songs : List Song) :
    Except Unit (List Song) :=
  match dst_songs.mapM (normalize_song env) with
  | .error e => .error e
  | .ok dstNorm =>
    let dst_songs_criteria := dstNorm.map gather_field_values
    match src_songs.mapM (normalize_song env) with
    | .error e => .error e
    | .ok srcNorm =>
      .ok (((src_songs.zip (srcNorm.map gather_field_values)).filter
        (fun p => !(dst_songs_criteria.contains p.2))).map (fun p => p.1))

/-!
### The filter evaluator (`_check_field_value`, `_check_filters`,
`filter_google_songs`)

Filter songs keep possibly multi-valued fields: `filter_local_songs` hands
the raw mutagen dict to `_check_filters`, whose `_check_field_value` has a
dedicated list branch.  `re.search(pattern, value, re.I)` is modelled, for
the regex-metacharacter-free patterns all the claims use, as
case-insensitive substring search.  A `None` filter argument and an empty
filter list have identical (falsy) behaviour in the source, so filters are
modelled as plain lists.
-/

/-- A song metadata field value as seen by the filter evaluator. -/
inductive FieldValue where
  | single : String → FieldValue
  | multi : List String → FieldValue
deriving DecidableEq

/-- A filter-song dict: field name to (possibly multi-valued) value. -/
abbrev FilterSong := List (String × FieldValue)

/-- Substring occurrence of `needle` in `hay` (`re.search` finds a match at
any position; an empty pattern always matches). -/
def containsSub : List Char → List Char → Bool
  | hay, needle =>
    needle.isPrefixOf hay ||
      (match hay with
       | [] => false
       | _ :: t => containsSub t needle)

/-- Models `re.search(pattern, str(value), re.I)` for a metacharacter-free pattern:
case-insensitive substring search. -/
def reSearchCI (pattern value : String) : Bool :=
  containsSub (lowerL value.data) (lowerL pattern.data)

/-- The function `_check_field_value`: a list value matches if any element matches. -/
def check_field_value (field_value : FieldValue) (pattern : String) : Bool :=
  match field_value with
  | .multi l => l.any (fun v => reSearchCI pattern v)
  | .single v => reSearchCI pattern v

/-- The per-rule predicate `field in song and _check_field_value(song[field],
pattern)` used inside `_check_filters`. -/
def fieldRule (song : FilterSong) (rule : String × String) : Bool :=
  match song.lookup rule.1 with
  | none => false
  | some v => check_field_value v rule.2

/-- The function `_check_filters`: include/exclude rule evaluation with any/all
combinators. -/
def check_filters (song : FilterSong)
    (include_filters exclude_filters : List (String × String))
    (all_includes all_excludes : Bool) : Bool :=
  let inc :=
    if include_filters.isEmpty then true
    else if all_includes then include_filters.all (fieldRule song)
    else include_filters.any (fieldRule song)
  let exc :=
    if exclude_filters.isEmpty then false
    else if all_excludes then exclude_filters.all (fieldRule song)
    else exclude_filters.any (fieldRule song)
  inc && !exc

/-- The function `filter_google_songs`: partition songs into (matched, filtered); with no
filters of either kind every song is matched. -/
def filter_google_songs (songs : List FilterSong)
    (include_filters exclude_filters : List (String × String))
    (all_includes all_excludes : Bool) :
    List FilterSong × List FilterSong :=
  if include_filters.isEmpty && exclude_filters.isEmpty then (songs, [])
  else
    (songs.filter (fun song =>
        check_filters song include_filters exclude_filters
          all_includes all_excludes),
     songs.filter (fun song =>
        !check_filters song include_filters exclude_filters
          all_includes all_excludes))

/-!
### `exclude_filepaths`

The source tests `if exclude_patterns is not None: return filepaths, []`
before ever compiling the patterns; when `exclude_patterns` is `None` the
fall-through `"|".join(pattern for pattern in exclude_patterns)` raises
`TypeError` (iterating `None`). -/

/-- The function `exclude_filepaths` (the `@cast_to_list(0)` decorator only wraps a bare
string into a list; the list form is modelled directly). -/
def exclude_filepaths (filepaths : List String)
    (exclude_patterns : Option (List String)) :
    Except Unit (List String × List String) :=
  match exclude_patterns with
  | some _ => .ok (filepaths, [])
  | none => .error ()

/-!
### The template expander (`get_suggested_filename`,
`_split_field_to_single_value`, `_replace_template_patterns`,
`template_to_filepath`)

Modelled for the POSIX path flavour: `os.path.splitdrive` yields no drive,
`os.path.isabs` tests for a leading `'/'`, and `os.sep = '/'`.  The mutation
of the caller's `metadata` dict performed by `_replace_template_patterns`
is made explicit: the functions return the resulting dict alongside the
path.  `os.getcwd()` is an external input and is passed in as `cwd`.
-/

/-- The `TEMPLATE_PATTERNS` table of `constants.py`, in source order. -/
def TEMPLATE_PATTERNS : List (String × String) :=
  [("%artist%", "artist"), ("%title%", "title"), ("%track%", "tracknumber"),
   ("%track2%", "tracknumber"), ("%album%", "album"), ("%date%", "date"),
   ("%genre%", "genre"), ("%albumartist%", "performer"),
   ("%disc%", "discnumber")]

/-- The string of two apostrophes (written via character codes). -/
def twoApostrophes : String := ⟨[Char.ofNat 39, Char.ofNat 39]⟩

/-- The `CHARACTER_REPLACEMENTS` table of `constants.py`, in source order. -/
def CHARACTER_REPLACEMENTS : List (Char × String) :=
  [('\\', "-"), ('/', ","), (':', "-"), ('*', "x"), ('<', "["),
   ('>', "]"), ('|', "!"), ('?', ""), ('"', twoApostrophes)]

/-- Python `str.replace(pat, repl)` on character lists: replace every
non-overlapping occurrence left to right, not rescanning replacements.  The
fuel starts at the length of the string; each step consumes at least one
character (the empty-pattern case, which no caller exercises, copies the
string unchanged). -/
def replaceSubF : Nat → List Char → List Char → List Char → List Char
  | 0, s, _, _ => s
  | fuel + 1, s, pat, repl =>
    match s with
    | [] => []
    | c :: rest =>
      if !pat.isEmpty && pat.isPrefixOf s then
        repl ++ replaceSubF fuel (s.drop pat.length) pat repl
      else c :: replaceSubF fuel rest pat repl

/-- Python `str.replace` on strings. -/
def replaceStr (s pat repl : String) : String :=
  ⟨replaceSubF s.data.length s.data pat.data repl.data⟩

/-- Python `'{x:0>2}'` formatting / `str.zfill(2)` on the digit strings the code
applies it to: left-pad with `'0'` to width two. -/
def zeroPad2 (s : String) : String :=
  if 2 ≤ s.data.length then s
  else ⟨List.replicate (2 - s.data.length) '0' ++ s.data⟩

/-- The function `_split_field_to_single_value`: `re.match(r'(\d+)/\d+', field)` is a
prefix match; on success `group(1)` (the leading digit run) is returned
(`group(1)` is always nonempty, so the `or field` in the source is dead
code); on failure the source evaluates `None.group(1)`, raising
`AttributeError`, modelled as `Except.error ()`. -/
def split_field_to_single_value (field : String) : Except Unit String :=
  let d := field.data.takeWhile Char.isDigit
  match field.data.dropWhile Char.isDigit with
  | '/' :: c :: _ =>
    if !d.isEmpty && c.isDigit then .ok ⟨d⟩ else .error ()
  | _ => .error ()

/-- The function `get_suggested_filename`: zero-padded track number and title, falling
back to `"00 <title>"`. -/
def get_suggested_filename (metadata : SongDict) : String :=
  if fieldTruthy metadata "title" && fieldTruthy metadata "track_number" then
    zeroPad2 ((metadata.lookup "track_number").getD "") ++ " " ++
      ((metadata.lookup "title").getD "")
  else if fieldTruthy metadata "title" && fieldTruthy metadata "trackNumber" then
    zeroPad2 ((metadata.lookup "trackNumber").getD "") ++ " " ++
      ((metadata.lookup "title").getD "")
  else if fieldTruthy metadata "title" && fieldTruthy metadata "tracknumber" then
    zeroPad2 ((metadata.lookup "tracknumber").getD "") ++ " " ++
      ((metadata.lookup "title").getD "")
  else "00 " ++ ((metadata.lookup "title").getD "")

/-- POSIX `os.path.split`: split off the last path component; trailing
slashes are stripped from the head unless the head is all slashes. -/
def osSplit (p : List Char) : List Char × List Char :=
  let revp := p.reverse
  let tail := (revp.takeWhile (fun c => !(c = '/'))).reverse
  let rest := (revp.dropWhile (fun c => !(c = '/'))).reverse
  let head :=
    if rest.all (fun c => c = '/') then rest
    else (rest.reverse.dropWhile (fun c => c = '/')).reverse
  (head, tail)

/-- The `while True` loop of `_replace_template_patterns`, accumulating the
split-off tails.  Each iteration strictly shortens the path, so the fuel
(initialised to length + 1) is never exhausted. -/
def collectPartsF : Nat → List Char → List (List Char)
  | 0, _ => []
  | fuel + 1, p =>
    let sp := osSplit p
    if sp.1 = p then [] else sp.2 :: collectPartsF fuel sp.1

/-- The path components of a template, in order (`parts.reverse()` of the
source). -/
def collectParts (p : List Char) : List (List Char) :=
  (collectPartsF (p.length + 1) p).reverse

/-- Python dict assignment `metadata[k] = v` on an association list. -/
def setKey : SongDict → String → String → SongDict
  | [], k, v => [(k, v)]
  | (k', v') :: rest, k, v =>
    if k' = k then (k, v) :: rest else (k', v') :: setKey rest k v

/-- One iteration of the `for key in template_patterns` loop on one path
segment: if the placeholder occurs in the segment and its mapped metadata
field exists, a track-number field is first coerced and zero-padded (and
written back into the metadata dict), then the placeholder is replaced with
the (possibly updated) field value. -/
def patternStep (kf : String × String) : String × SongDict →
    Except Unit (String × SongDict)
  | (part, metadata) =>
  if containsSub part.data kf.1.data && (metadata.lookup kf.2).isSome then
    if kf.2 = "tracknumber" || kf.2 = "track_number" then
      match split_field_to_single_value ((metadata.lookup kf.2).getD "") with
      | .error e => .error e
      | .ok track_number =>
        let md := setKey metadata kf.2 (zeroPad2 track_number)
        .ok (replaceStr part kf.1 ((md.lookup kf.2).getD ""), md)
    else
      .ok (replaceStr part kf.1 ((metadata.lookup kf.2).getD ""), metadata)
  else
    .ok (part, metadata)

/-- One iteration of the `for char in CHARACTER_REPLACEMENTS` loop on one
path segment. -/
def charStep (part : String) (cr : Char × String) : String :=
  if containsSub part.data [cr.1] then replaceStr part ⟨[cr.1]⟩ cr.2
  else part

/-- Process one path segment: all placeholder substitutions, then all
character replacements. -/
def processPart (template_patterns : List (String × String))
    (metadata : SongDict) (part : String) :
    Except Unit (String × SongDict) :=
  match template_patterns.foldlM (fun st kf => patternStep kf st)
    (part, metadata) with
  | .error e => .error e
  | .ok (part', md) => .ok (CHARACTER_REPLACEMENTS.foldl charStep part', md)

/-- Process all path segments in order, threading the metadata dict (its
mutations persist across segments). -/
def processParts (template_patterns : List (String × String)) :
    SongDict → List String → Except Unit (List String × SongDict)
  | md, [] => .ok ([], md)
  | md, part :: rest =>
    match processPart template_patterns md part with
    | .error e => .error e
    | .ok (part', md') =>
      match processParts template_patterns md' rest with
      | .error e => .error e
      | .ok (parts', md'') => .ok (part' :: parts', md'')

/-- Rejoin the processed segments (`os.path.join`): absolute templates are
re-rooted at `'/'`; `os.path.join()` with no arguments (empty relative
template) raises `TypeError`.  After character replacement no segment
contains a separator, so joining is interleaving `'/'`. -/
def joinParts (template : String) (parts : List String) :
    Except Unit String :=
  if template.data.headD ' ' = '/' then
    .ok ("/" ++ String.intercalate "/" parts)
  else if parts.isEmpty then .error ()
  else .ok (String.intercalate "/" parts)

/-- The function `_replace_template_patterns`, returning the filepath together with the
(possibly mutated) metadata dict. -/
def replace_template_patterns (template : String) (metadata : SongDict)
    (template_patterns : List (String × String)) :
    Except Unit (String × SongDict) :=
  let parts := (collectParts template.data).map
    (fun p => (⟨p⟩ : String))
  match processParts template_patterns metadata parts with
  | .error e => .error e
  | .ok (parts', md) =>
    match joinParts template parts' with
    | .error e => .error e
    | .ok fp => .ok (fp, md)

/-- The function `template_to_filepath` on a metadata dict (a non-dict input is collapsed
by `_mutagen_fields_to_single_value` first and is then no longer the
caller's mapping), returning the filepath together with the (possibly
mutated) metadata dict.  `template_patterns` is the explicit form of the
`None`-defaulted parameter. -/
def template_to_filepath (cwd template : String) (metadata : SongDict)
    (template_patterns : List (String × String)) :
    Except Unit (String × SongDict) :=
  let suggested_filename :=
    replaceStr (get_suggested_filename metadata) ".mp3" ""
  if template = cwd || template = "%suggested%" then
    .ok (suggested_filename, metadata)
  else
    replace_template_patterns
      (replaceStr template "%suggested%" suggested_filename)
      metadata template_patterns

/-- Does the string start with a zero followed by another digit?  (The
configuration on which `re.sub(r'^0+([0-9]+)', r'\1', s)` fires.) -/
def startsZeroDigit : List Char → Bool
  | '0' :: d :: _ => d.isDigit
  | _ => false

/-- Does the string start with `"the"` followed by whitespace?  (The
configuration on which the leading-article removal fires.) -/
def startsLeadingThe : List Char → Bool
  | a :: b :: d :: e :: _ => a = 't' && b = 'h' && d = 'e' && isSpaceCh e
  | _ => false

/-!
## Lemmas
-/

/-- The map `toLowerCh` either fixes its argument or yields a lower-case letter. -/
theorem toLowerCh_cases (c : Char) :
    toLowerCh c = c ∨ toLowerCh c ∈
      ['a', 'b', 'c', 'd', 'e', 'f', 'g', 'h', 'i', 'j', 'k', 'l', 'm',
       'n', 'o', 'p', 'q', 'r', 's', 't', 'u', 'v', 'w', 'x', 'y', 'z'] := by
  unfold toLowerCh
  repeat' split
  all_goals simp

/-- Lower-case letters are fixed points of `toLowerCh`. -/
theorem toLowerCh_fix_of_lower (c : Char)
    (h : c ∈ ['a', 'b', 'c', 'd', 'e', 'f', 'g', 'h', 'i', 'j', 'k', 'l', 'm',
       'n', 'o', 'p', 'q', 'r', 's', 't', 'u', 'v', 'w', 'x', 'y', 'z']) :
    toLowerCh c = c := by
  fin_cases h <;> rfl

/-- Lower-casing a character twice is the same as doing it once. -/
theorem toLowerCh_idem (c : Char) : toLowerCh (toLowerCh c) = toLowerCh c := by
  rcases toLowerCh_cases c with h | h
  · rw [h]; exact h
  · exact toLowerCh_fix_of_lower _ h

/-- With error type `Unit`, `mapM` fails as soon as any element fails. -/
theorem mapM_error_of_mem {α β : Type} (f : α → Except Unit β) (l : List α)
    (x : α) (hx : x ∈ l) (hf : f x = .error ()) :
    l.mapM f = .error () := by
  induction l with
  | nil => cases hx
  | cons a rest ih =>
    rw [List.mapM_cons]
    rcases List.mem_cons.mp hx with rfl | hx'
    · rw [hf]; rfl
    · cases hfa : f a with
      | error e => cases e; rfl
      | ok y =>
        have : rest.mapM f = .error () := ih hx'
        rw [this]
        rfl

/-!
## Claim C3: lemmas about the characters of normalizer outputs
-/

/-- The slash-total scan only emits characters of its input. -/
theorem mem_rstF (fuel : Nat) (s : List Char) (c : Char)
    (h : c ∈ rstF fuel s) : c ∈ s := by
  induction fuel generalizing s with
  | zero => exact h
  | succ fuel ih =>
    cases s with
    | nil => simp [rstF] at h
    | cons a rest =>
      rw [rstF] at h
      by_cases ha : a = '/'
      · rw [if_pos ha] at h
        by_cases hd : ((rest.dropWhile isSpaceCh).takeWhile
            Char.isDigit).isEmpty
        · rw [if_pos hd] at h
          rcases List.mem_cons.mp h with rfl | h'
          · exact List.mem_cons_self _ _
          · exact List.mem_cons_of_mem _ (ih _ h')
        · rw [if_neg hd] at h
          have h1 := ih _ h
          have h2 : c ∈ rest.dropWhile isSpaceCh :=
            (List.dropWhile_sublist _).subset h1
          exact List.mem_cons_of_mem _ ((List.dropWhile_sublist _).subset h2)
      · rw [if_neg ha] at h
        rcases List.mem_cons.mp h with rfl | h'
        · exact List.mem_cons_self _ _
        · exact List.mem_cons_of_mem _ (ih _ h')

/-- Leading-zero stripping only emits input characters or `'0'`. -/
theorem mem_stripLeadingZeros (s : List Char) (c : Char)
    (h : c ∈ stripLeadingZeros s) : c ∈ s ∨ c = '0' := by
  rw [stripLeadingZeros] at h
  split at h
  · exact Or.inl h
  · split at h
    · exact Or.inl ((List.dropWhile_sublist _).subset h)
    · split at h
      · rcases List.mem_cons.mp h with rfl | h'
        · exact Or.inr rfl
        · exact Or.inl ((List.dropWhile_sublist _).subset h')
      · exact Or.inl h

/-- Dotted-prefix stripping only emits input characters. -/
theorem mem_stripDotTrack (s : List Char) (c : Char)
    (h : c ∈ stripDotTrack s) : c ∈ s := by
  rw [stripDotTrack] at h
  split at h
  · exact h
  · split at h
    · exact (List.dropWhile_sublist _).subset
        ((List.dropWhile_sublist _).subset h)
    · exact h

/-- Whitespace collapsing emits `' '` or non-whitespace input characters. -/
theorem mem_collapseSpaces (s : List Char) (c : Char)
    (h : c ∈ collapseSpaces s) : c = ' ' ∨ (c ∈ s ∧ isSpaceCh c = false) := by
  induction s with
  | nil => simp [collapseSpaces] at h
  | cons a rest ih =>
    cases rest with
    | nil =>
      rw [collapseSpaces] at h
      split at h
      · simp at h
        exact Or.inl h
      · rename_i ha
        simp at h
        subst h
        exact Or.inr ⟨List.mem_cons_self _ _, by simpa using ha⟩
    | cons b rest' =>
      rw [collapseSpaces] at h
      split at h
      · rcases ih h with hc | ⟨hm, hs⟩
        · exact Or.inl hc
        · exact Or.inr ⟨List.mem_cons_of_mem _ hm, hs⟩
      · rcases List.mem_cons.mp h with rfl | h'
        · by_cases ha : isSpaceCh a = true
          · rw [if_pos ha]
            exact Or.inl rfl
          · rw [if_neg ha]
            exact Or.inr ⟨List.mem_cons_self _ _, by simpa using ha⟩
        · rcases ih h' with hc | ⟨hm, hs⟩
          · exact Or.inl hc
          · exact Or.inr ⟨List.mem_cons_of_mem _ hm, hs⟩

/-- Leading-"the" stripping only emits input characters. -/
theorem mem_stripLeadingThe (s : List Char) (c : Char)
    (h : c ∈ stripLeadingThe s) : c ∈ s := by
  rcases s with _ | ⟨a, _ | ⟨b, _ | ⟨d, _ | ⟨e, rest⟩⟩⟩⟩
  · exact h
  · exact h
  · exact h
  · exact h
  · rw [stripLeadingThe] at h
    split at h
    · have he : c ∈ e :: rest := (List.dropWhile_sublist _).subset h
      simp only [List.mem_cons] at he ⊢
      tauto
    · exact h

/-- Trailing-whitespace stripping only emits input characters. -/
theorem mem_stripTrailingWs (s : List Char) (c : Char)
    (h : c ∈ stripTrailingWs s) : c ∈ s := by
  rw [stripTrailingWs] at h
  rw [List.mem_reverse] at h
  have := (List.dropWhile_sublist _).subset h
  rwa [List.mem_reverse] at this

/-!
## Claim C3: the second pass is the identity on stable outputs
-/

/-- Lower-casing is a no-op on strings of `toLowerCh`-fixed characters. -/
theorem lowerL_noop (t : List Char) (h : ∀ c ∈ t, toLowerCh c = c) :
    lowerL t = t := by
  unfold lowerL
  calc t.map toLowerCh = t.map id := List.map_congr_left h
    _ = t := List.map_id t

/-- The slash-total scan is a no-op without a slash. -/
theorem rstF_noop (fuel : Nat) (t : List Char) (h : '/' ∉ t) :
    rstF fuel t = t := by
  induction fuel generalizing t with
  | zero => rfl
  | succ fuel ih =>
    cases t with
    | nil => rfl
    | cons a rest =>
      rw [rstF]
      have ha : ¬(a = '/') := fun hc => h (hc ▸ List.mem_cons_self a rest)
      rw [if_neg ha, ih rest (fun hc => h (List.mem_cons_of_mem a hc))]

/-- The scan `removeSlashTotal` is a no-op without a slash. -/
theorem removeSlashTotal_noop (t : List Char) (h : '/' ∉ t) :
    removeSlashTotal t = t := rstF_noop _ t h

/-- Leading-zero stripping is a no-op unless the string starts with a zero
followed by a digit. -/
theorem stripLeadingZeros_noop (t : List Char)
    (h : startsZeroDigit t = false) : stripLeadingZeros t = t := by
  cases t with
  | nil => rfl
  | cons a rest =>
    by_cases ha : a = '0'
    · subst ha
      cases rest with
      | nil => rfl
      | cons b rest' =>
        have hb : b.isDigit = false := by
          simpa [startsZeroDigit] using h
        have hb0 : ¬(b = '0') := fun hc => by simp [hc, Char.isDigit] at hb
        rw [stripLeadingZeros]
        have htake : ('0' :: b :: rest').takeWhile (fun c => c = '0') =
            '0' :: [] := by
          simp [List.takeWhile_cons, hb0]
        have hdrop : ('0' :: b :: rest').dropWhile (fun c => c = '0') =
            b :: rest' := by
          simp [List.dropWhile_cons, hb0]
        rw [htake, hdrop]
        simp [hb]
    · rw [stripLeadingZeros]
      have htake : (a :: rest).takeWhile (fun c => c = '0') = [] := by
        simp [List.takeWhile_cons, ha]
      rw [htake]
      simp

/-- Dotted-prefix stripping is a no-op without a dot. -/
theorem stripDotTrack_noop (t : List Char) (h : '.' ∉ t) :
    stripDotTrack t = t := by
  rw [stripDotTrack]
  split
  · rfl
  · split
    · rename_i hd hdot
      exfalso
      cases hc : t.dropWhile Char.isDigit with
      | nil =>
        rw [hc] at hdot
        exact absurd hdot (by decide)
      | cons x xs =>
        rw [hc] at hdot
        simp only [List.headD_cons] at hdot
        have hx : x ∈ t.dropWhile Char.isDigit := by
          rw [hc]
          exact List.mem_cons_self x xs
        have hxt : x ∈ t := (List.dropWhile_sublist Char.isDigit).subset hx
        exact h (hdot ▸ hxt)
    · rfl

/-- Removing non-word characters is a no-op on word-or-space strings. -/
theorem removeNonWord_noop (t : List Char)
    (h : ∀ c ∈ t, (isWordCh c || isSpaceCh c) = true) :
    removeNonWord t = t :=
  List.filter_eq_self.mpr h

/-- The head of a collapsed string is the head of the input, with a
whitespace head turned into `' '`. -/
theorem collapseSpaces_head (s : List Char) :
    (collapseSpaces s).head? =
      s.head?.map (fun c => if isSpaceCh c then ' ' else c) := by
  induction s with
  | nil => rfl
  | cons a rest ih =>
    cases rest with
    | nil =>
      by_cases ha : isSpaceCh a = true
      · simp [collapseSpaces, ha]
      · simp [collapseSpaces, ha]
    | cons b rest' =>
      rw [collapseSpaces]
      by_cases hab : (isSpaceCh a && isSpaceCh b) = true
      · rw [if_pos hab]
        rw [ih]
        rcases Bool.and_eq_true_iff.mp hab with ⟨ha, hb⟩
        simp [ha, hb]
      · rw [if_neg hab]
        simp

/-- Collapsed strings never contain two adjacent whitespace characters. -/
theorem collapseSpaces_chain (s : List Char) :
    List.Chain' (fun a b => ¬(isSpaceCh a = true ∧ isSpaceCh b = true))
      (collapseSpaces s) := by
  induction s with
  | nil => simp [collapseSpaces]
  | cons a rest ih =>
    cases rest with
    | nil =>
      by_cases ha : isSpaceCh a = true
      · simp [collapseSpaces, ha]
      · simp [collapseSpaces, ha]
    | cons b rest' =>
      rw [collapseSpaces]
      by_cases hab : (isSpaceCh a && isSpaceCh b) = true
      · rw [if_pos hab]
        exact ih
      · rw [if_neg hab]
        apply List.chain'_cons'.mpr
        refine ⟨?_, ih⟩
        intro y hy
        rw [collapseSpaces_head] at hy
        simp only [List.head?_cons, Option.map_some', Option.mem_def,
          Option.some.injEq] at hy
        intro hcon
        obtain ⟨hx, hys⟩ := hcon
        by_cases hbv : isSpaceCh b = true
        · have hav : isSpaceCh a = false := by
            cases hav2 : isSpaceCh a
            · rfl
            · exact absurd (by rw [hav2, hbv]; rfl) hab
          simp [hav] at hx
        · rw [if_neg hbv] at hy
          subst hy
          exact hbv hys

/-- Collapsing is a no-op when all whitespace is `' '` and no two spaces are
adjacent. -/
theorem collapseSpaces_noop (t : List Char)
    (hsp : ∀ c ∈ t, isSpaceCh c = true → c = ' ')
    (hch : List.Chain' (fun a b => ¬(isSpaceCh a = true ∧ isSpaceCh b = true))
      t) : collapseSpaces t = t := by
  induction t with
  | nil => rfl
  | cons a rest ih =>
    cases rest with
    | nil =>
      rw [collapseSpaces]
      by_cases ha : isSpaceCh a = true
      · rw [if_pos ha, hsp a (List.mem_cons_self _ _) ha]
      · rw [if_neg ha]
    | cons b rest' =>
      rw [collapseSpaces]
      have hnab : ¬(isSpaceCh a = true ∧ isSpaceCh b = true) :=
        (List.chain'_cons.mp hch).1
      have hab : (isSpaceCh a && isSpaceCh b) ≠ true := by
        intro hcon
        exact hnab (Bool.and_eq_true_iff.mp hcon)
      rw [if_neg hab]
      have htail : collapseSpaces (b :: rest') = b :: rest' :=
        ih (fun c hc hs => hsp c (List.mem_cons_of_mem a hc) hs)
          (List.Chain'.tail hch)
      rw [htail]
      by_cases ha : isSpaceCh a = true
      · rw [if_pos ha, hsp a (List.mem_cons_self _ _) ha]
      · rw [if_neg ha]

/-- Dropping leading whitespace is a no-op when the head is not
whitespace. -/
theorem stripLeadingWs_noop (t : List Char)
    (h : ∀ c ∈ t.head?, isSpaceCh c = false) : stripLeadingWs t = t := by
  cases t with
  | nil => rfl
  | cons a rest =>
    rw [stripLeadingWs, List.dropWhile_cons,
      if_neg (by simp [h a (by simp)])]

/-- Dropping trailing whitespace is a no-op when the last character is not
whitespace. -/
theorem stripTrailingWs_noop (t : List Char)
    (h : ∀ c ∈ t.getLast?, isSpaceCh c = false) : stripTrailingWs t = t := by
  rw [stripTrailingWs]
  have : t.reverse.dropWhile isSpaceCh = t.reverse := by
    apply stripLeadingWs_noop
    intro c hc
    rw [List.head?_reverse] at hc
    exact h c hc
  rw [this, List.reverse_reverse]

/-- Leading-"the" removal is a no-op when the string does not start with
"the" plus whitespace. -/
theorem stripLeadingThe_noop (t : List Char)
    (h : startsLeadingThe t = false) : stripLeadingThe t = t := by
  rcases t with _ | ⟨a, _ | ⟨b, _ | ⟨d, _ | ⟨e, rest⟩⟩⟩⟩
  · rfl
  · rfl
  · rfl
  · rfl
  · rw [stripLeadingThe]
    rw [if_neg]
    intro ⟨ha, hb, hd, he⟩
    rw [startsLeadingThe] at h
    simp [ha, hb, hd, he] at h

/-!
## Claim C3: invariants of normalizer outputs
-/

/-- Dropping leading whitespace only emits input characters. -/
theorem mem_stripLeadingWs (s : List Char) (c : Char)
    (h : c ∈ stripLeadingWs s) : c ∈ s :=
  (List.dropWhile_sublist _).subset h

/-- Leading-"the" removal yields a suffix. -/
theorem stripLeadingThe_suffix (u : List Char) : stripLeadingThe u <:+ u := by
  rcases u with _ | ⟨a, _ | ⟨b, _ | ⟨d, _ | ⟨e, rest⟩⟩⟩⟩
  · exact List.suffix_refl _
  · exact List.suffix_refl _
  · exact List.suffix_refl _
  · exact List.suffix_refl _
  · rw [stripLeadingThe]
    split
    · exact (List.dropWhile_suffix _).trans ⟨[a, b, d], rfl⟩
    · exact List.suffix_refl _

/-- Trailing-whitespace removal yields a prefix. -/
theorem prefix_stripTrailingWs (t : List Char) : stripTrailingWs t <+: t := by
  rw [stripTrailingWs]
  have h := List.dropWhile_suffix (l := t.reverse) isSpaceCh
  have h2 := List.reverse_prefix.mpr h
  rwa [List.reverse_reverse] at h2

/-- Every character of a normalizer output is a word character or `' '`. -/
theorem normalizeL_wordOrSpace (s : List Char) :
    ∀ c ∈ normalizeL s, (isWordCh c || isSpaceCh c) = true := by
  intro c hc
  unfold normalizeL at hc
  have h3 := mem_stripLeadingWs _ _
    (mem_stripTrailingWs _ _ (mem_stripLeadingThe _ _ hc))
  rcases mem_collapseSpaces _ _ h3 with rfl | ⟨hm, -⟩
  · decide
  · exact (List.mem_filter.mp hm).2

/-- Every whitespace character of a normalizer output is `' '`. -/
theorem normalizeL_spaceBlank (s : List Char) :
    ∀ c ∈ normalizeL s, isSpaceCh c = true → c = ' ' := by
  intro c hc hs
  unfold normalizeL at hc
  have h3 := mem_stripLeadingWs _ _
    (mem_stripTrailingWs _ _ (mem_stripLeadingThe _ _ hc))
  rcases mem_collapseSpaces _ _ h3 with rfl | ⟨-, hns⟩
  · rfl
  · rw [hs] at hns
    exact Bool.noConfusion hns

/-- Every character of a normalizer output is fixed by lower-casing. -/
theorem normalizeL_lowerFixed (s : List Char) :
    ∀ c ∈ normalizeL s, toLowerCh c = c := by
  intro c hc
  unfold normalizeL at hc
  have h3 := mem_stripLeadingWs _ _
    (mem_stripTrailingWs _ _ (mem_stripLeadingThe _ _ hc))
  rcases mem_collapseSpaces _ _ h3 with rfl | ⟨hm, -⟩
  · rfl
  · have h5 := (List.mem_filter.mp hm).1
    have h6 := mem_stripDotTrack _ _ h5
    rcases mem_stripLeadingZeros _ _ h6 with h7 | rfl
    · have h8 := mem_rstF _ _ _ h7
      rw [lowerL, List.mem_map] at h8
      obtain ⟨c0, -, rfl⟩ := h8
      exact toLowerCh_idem c0
    · rfl

/-- A normalizer output has no two adjacent whitespace characters. -/
theorem normalizeL_chain (s : List Char) :
    List.Chain' (fun a b => ¬(isSpaceCh a = true ∧ isSpaceCh b = true))
      (normalizeL s) := by
  unfold normalizeL
  exact List.Chain'.suffix
    ( List.Chain'.prefix
      ((collapseSpaces_chain _).suffix (List.dropWhile_suffix _))
      (prefix_stripTrailingWs _))
    (stripLeadingThe_suffix _)

/-- After dropping leading then trailing whitespace, the head is not
whitespace. -/
theorem head_not_space_aux (v : List Char) :
    ∀ c ∈ (stripTrailingWs (stripLeadingWs v)).head?, isSpaceCh c = false := by
  intro c hc
  obtain ⟨post, hpost⟩ := prefix_stripTrailingWs (stripLeadingWs v)
  have hcx : c ∈ (stripLeadingWs v).head? := by
    rw [← hpost, List.head?_append]
    rw [Option.mem_def] at hc ⊢
    rw [hc]
    rfl
  rw [stripLeadingWs] at hcx
  have hthis := List.head?_dropWhile_not isSpaceCh v
  rw [Option.mem_def] at hcx
  rw [hcx] at hthis
  exact hthis

/-- Leading-"the" removal preserves a non-whitespace head. -/
theorem stripLeadingThe_head (u : List Char)
    (hu : ∀ c ∈ u.head?, isSpaceCh c = false) :
    ∀ c ∈ (stripLeadingThe u).head?, isSpaceCh c = false := by
  intro c hc
  rcases u with _ | ⟨a, _ | ⟨b, _ | ⟨d, _ | ⟨e, rest⟩⟩⟩⟩
  · exact hu c hc
  · exact hu c hc
  · exact hu c hc
  · exact hu c hc
  · rw [stripLeadingThe] at hc
    split at hc
    · have hthis := List.head?_dropWhile_not isSpaceCh (e :: rest)
      rw [Option.mem_def] at hc
      rw [hc] at hthis
      exact hthis
    · exact hu c hc

/-- The head of a normalizer output is not whitespace. -/
theorem normalizeL_head (s : List Char) :
    ∀ c ∈ (normalizeL s).head?, isSpaceCh c = false := by
  unfold normalizeL
  exact stripLeadingThe_head _ (head_not_space_aux _)

/-- Trailing-whitespace removal leaves no whitespace at the end. -/
theorem stripTrailingWs_last (t : List Char) :
    ∀ c ∈ (stripTrailingWs t).getLast?, isSpaceCh c = false := by
  intro c hc
  rw [stripTrailingWs, List.getLast?_reverse] at hc
  have hthis := List.head?_dropWhile_not isSpaceCh t.reverse
  rw [Option.mem_def] at hc
  rw [hc] at hthis
  exact hthis

/-- Leading-"the" removal preserves a non-whitespace last character. -/
theorem stripLeadingThe_last (u : List Char)
    (hu : ∀ c ∈ u.getLast?, isSpaceCh c = false) :
    ∀ c ∈ (stripLeadingThe u).getLast?, isSpaceCh c = false := by
  intro c hc
  obtain ⟨pre, hpre⟩ := stripLeadingThe_suffix u
  apply hu
  rw [← hpre, List.getLast?_append]
  rw [Option.mem_def] at hc ⊢
  rw [hc]
  rfl

/-- The last character of a normalizer output is not whitespace. -/
theorem normalizeL_last (s : List Char) :
    ∀ c ∈ (normalizeL s).getLast?, isSpaceCh c = false := by
  unfold normalizeL
  exact stripLeadingThe_last _ (stripTrailingWs_last _)

/-!
## Claim C3: main results
-/

/-- The normalizer is idempotent on every input whose normal form does not
expose a fresh leading-zero run or a fresh leading "the". -/
theorem normalizeL_idem_of_stable (s : List Char)
    (h1 : startsZeroDigit (normalizeL s) = false)
    (h2 : startsLeadingThe (normalizeL s) = false) :
    normalizeL (normalizeL s) = normalizeL s := by
  have hly := normalizeL_lowerFixed s
  have hws := normalizeL_wordOrSpace s
  have hsb := normalizeL_spaceBlank s
  have hch := normalizeL_chain s
  have hhd := normalizeL_head s
  have hls := normalizeL_last s
  have hslash : '/' ∉ normalizeL s := by
    intro hmem
    exact absurd (hws _ hmem) (by decide)
  have hdot : '.' ∉ normalizeL s := by
    intro hmem
    exact absurd (hws _ hmem) (by decide)
  show stripLeadingThe (stripTrailingWs (stripLeadingWs (collapseSpaces
    (removeNonWord (stripDotTrack (stripLeadingZeros (removeSlashTotal
      (lowerL (normalizeL s))))))))) = normalizeL s
  rw [lowerL_noop _ hly, removeSlashTotal_noop _ hslash,
    stripLeadingZeros_noop _ h1, stripDotTrack_noop _ hdot,
    removeNonWord_noop _ hws, collapseSpaces_noop _ hsb hch,
    stripLeadingWs_noop _ hhd, stripTrailingWs_noop _ hls,
    stripLeadingThe_noop _ h2]

/-- Claim C3, counterexample: the normalizer is not idempotent.  One pass on
`"the the x"` strips a single leading "the", exposing another, which only a
second pass removes. -/
theorem normalize_not_idempotent_counterexample :
    normalize_metadata (normalize_metadata "the the x") ≠
      normalize_metadata "the the x" := by decide

/-- Claim C3 (amended): the normalizer is idempotent on every input whose
normalized form neither starts with a zero followed by a digit (fresh
leading-zero material exposed by the first pass) nor with "the" followed by
whitespace (a fresh leading article exposed by the first pass); on other
inputs a second pass strips further. -/
theorem normalize_metadata_idem_of_stable (s : String)
    (h1 : startsZeroDigit (normalize_metadata s).data = false)
    (h2 : startsLeadingThe (normalize_metadata s).data = false) :
    normalize_metadata (normalize_metadata s) = normalize_metadata s :=
  congrArg (fun l => (⟨l⟩ : String))
    (normalizeL_idem_of_stable s.data h1 h2)

/-- Witness for C3 (amended), at a concrete stable input. -/
theorem normalize_metadata_idem_of_stable_witness :
    startsZeroDigit (normalize_metadata "Hello  World").data = false ∧
    startsLeadingThe (normalize_metadata "Hello  World").data = false ∧
    normalize_metadata (normalize_metadata "Hello  World") =
      normalize_metadata "Hello  World" :=
  ⟨by decide, by decide,
    normalize_metadata_idem_of_stable "Hello  World" (by decide) (by decide)⟩

/-!
## Claim C1
-/

/-- Claim C1, counterexample: a local song whose tags cannot be read does
not make `compare_song_collections` "never raise and still return the diff
of the remaining songs" — the call raises (`mutagen.MutagenError`
propagates, modelled as `Except.error ()`) instead of returning any list. -/
theorem compare_unreadable_counterexample :
    compare_song_collections (fun _ => none) [Song.path "bad.mp3"] [] =
      .error () := rfl

/-- Claim C1 (amended): if any element of either collection is a local song
filepath whose tags cannot be read, `compare_song_collections` does not
exclude it: the read failure (after a logged warning) propagates and the
call raises instead of returning a diff. -/
theorem compare_raises_on_unreadable (env : TagEnv) (src dst : List Song)
    (p : String) (henv : env p = none)
    (hmem : Song.path p ∈ src ∨ Song.path p ∈ dst) :
    compare_song_collections env src dst = .error () := by
  have hbad : normalize_song env (Song.path p) = .error () := by
    simp [normalize_song, get_mutagen_metadata, henv]
  unfold compare_song_collections
  rcases hmem with hsrc | hdst
  · cases hd : dst.mapM (normalize_song env) with
    | error e => cases e; rfl
    | ok ys =>
      rw [mapM_error_of_mem _ _ _ hsrc hbad]
  · rw [mapM_error_of_mem _ _ _ hdst hbad]

/-- Witness for C1 (amended), at a concrete unreadable destination song. -/
theorem compare_raises_on_unreadable_witness :
    compare_song_collections (fun _ => none) [] [Song.path "bad.mp3"] =
      .error () :=
  compare_raises_on_unreadable (fun _ => none) [] [Song.path "bad.mp3"]
    "bad.mp3" rfl (Or.inr (by simp))

/-!
## Claim C2
-/

/-- Claim C2, counterexample: a song with track number `"0"` and an
otherwise-equal song with no track number at all get different identity
keys, and `compare_song_collections` treats them as different songs. -/
theorem track_zero_vs_missing_counterexample :
    gather_field_values
        [("artist", "x"), ("album", "y"), ("title", "z"),
         ("track_number", "0")] ≠
      gather_field_values
        [("artist", "x"), ("album", "y"), ("title", "z")] ∧
    compare_song_collections (fun _ => none)
        [Song.dict [("artist", "x"), ("album", "y"), ("title", "z"),
          ("track_number", "0")]]
        [Song.dict [("artist", "x"), ("album", "y"), ("title", "z")]] =
      .ok [Song.dict [("artist", "x"), ("album", "y"), ("title", "z"),
        ("track_number", "0")]] :=
  ⟨by decide, rfl⟩

/-- Claim C2 (amended): the identity key has no default for a missing track
number.  A song lacking a nonempty `tracknumber`/`track_number` contributes
no track component at all: its key is built from exactly the present
{artist, album, title} fields. -/
theorem gather_no_track_default (song : SongDict)
    (h1 : fieldTruthy song "tracknumber" = false)
    (h2 : fieldTruthy song "track_number" = false) :
    gather_field_values song =
      (["artist", "album", "title"].filter (fieldTruthy song)).map
        (fun field => normalize_metadata ((song.lookup field).getD "")) := by
  simp [gather_field_values, filter_comparison_fields, List.filter, h1, h2]

/-- Witness for C2 (amended), at a concrete track-less song. -/
theorem gather_no_track_default_witness :
    gather_field_values [("artist", "x"), ("album", "y"), ("title", "z")] =
      (["artist", "album", "title"].filter
        (fieldTruthy [("artist", "x"), ("album", "y"), ("title", "z")])).map
        (fun field => normalize_metadata
          ((List.lookup field
            [("artist", "x"), ("album", "y"), ("title", "z")]).getD "")) :=
  gather_no_track_default _ (by decide) (by decide)

/-!
## Claim C4
-/

/-- Claim C4, counterexample: no field-name translation happens.  A rule on
the remote-vocabulary field `album_artist` does not match a local song whose
tag field is `performer`, even with the same value. -/
theorem filter_no_field_mapping_counterexample :
    check_filters [("performer", FieldValue.single "Foo")]
      [("album_artist", "Foo")] [] false false = false := by decide

/-- Claim C4 (amended): a rule's field name must be literally a key of the
song's mapping — no vocabulary translation occurs.  A field name not
present in the song makes the rule's per-field predicate false (never an
error). -/
theorem fieldRule_absent_is_false (song : FilterSong) (f pat : String)
    (h : song.lookup f = none) : fieldRule song (f, pat) = false := by
  simp [fieldRule, h]

/-- Witness for C4 (amended), at a concrete song and rule. -/
theorem fieldRule_absent_is_false_witness :
    fieldRule [("performer", FieldValue.single "Foo")]
      ("album_artist", "Foo") = false :=
  fieldRule_absent_is_false _ _ _ (by decide)

/-!
## Claim C5
-/

/-- Claim C5: the code is wrong.  `_split_field_to_single_value` evaluates
`None.group(1)` when the track value does not have the `"N/Total"` shape, so
a plain `"3"` raises `AttributeError` instead of being padded to `"03"`
(the `or field` fallback in the source, and its docstring, show the intent).
Template expansion of a track placeholder with track value `"3"` therefore
raises. -/
theorem template_plain_track_raises :
    split_field_to_single_value "3" = .error () ∧
    template_to_filepath "/cwd" "%track2%"
      [("tracknumber", "3"), ("title", "T")] TEMPLATE_PATTERNS =
      .error () :=
  ⟨rfl, rfl⟩

/-!
## Claim C6
-/

/-- Claim C6: `compare_song_collections` is reflexive.  For every collection
X all of whose songs resolve (no unreadable local file — reading then
succeeds with some list `ys` of song dicts), `compare_song_collections X X`
returns the empty list. -/
theorem compare_self_empty (env : TagEnv) (X : List Song) (ys : List SongDict)
    (h : X.mapM (normalize_song env) = .ok ys) :
    compare_song_collections env X X = .ok [] := by
  have hfil : (X.zip (ys.map gather_field_values)).filter
      (fun p => !((ys.map gather_field_values).contains p.2)) = [] := by
    apply List.filter_eq_nil_iff.mpr
    intro p hp
    obtain ⟨a, b⟩ := p
    have hb : b ∈ ys.map gather_field_values := (List.of_mem_zip hp).2
    have hc : (ys.map gather_field_values).contains b = true :=
      List.elem_iff.mpr hb
    intro hcontra
    rw [hc] at hcontra
    exact absurd hcontra (by decide)
  unfold compare_song_collections
  rw [h]
  show Except.ok (((X.zip (ys.map gather_field_values)).filter
      (fun p => !((ys.map gather_field_values).contains p.2))).map
        (fun p => p.1)) = .ok []
  rw [hfil]
  rfl

/-- Witness for C6, at a concrete one-song collection. -/
theorem compare_self_empty_witness :
    compare_song_collections (fun _ => none)
      [Song.dict [("artist", "Muse")]] [Song.dict [("artist", "Muse")]] =
      .ok [] :=
  compare_self_empty (fun _ => none) [Song.dict [("artist", "Muse")]]
    [[("artist", "Muse")]] rfl

/-!
## Claim C7
-/

/-- Python `str.replace` leaves a string without an occurrence of the pattern
unchanged. -/
theorem replaceSubF_of_not_contains (fuel : Nat) (s pat repl : List Char)
    (h : containsSub s pat = false) : replaceSubF fuel s pat repl = s := by
  induction fuel generalizing s with
  | zero => rfl
  | succ fuel ih =>
    cases s with
    | nil => rfl
    | cons c rest =>
      rw [containsSub] at h
      have h1 : pat.isPrefixOf (c :: rest) = false := by
        cases hp : pat.isPrefixOf (c :: rest) <;> simp [hp] at h ⊢
      have h2 : containsSub rest pat = false := by
        cases hp : containsSub rest pat <;> simp [hp, h1] at h ⊢
      simp [replaceSubF, h1, ih rest h2]

/-- Python `str.replace` on strings, no-occurrence case. -/
theorem replaceStr_of_not_contains (s pat repl : String)
    (h : containsSub s.data pat.data = false) : replaceStr s pat repl = s := by
  unfold replaceStr
  rw [replaceSubF_of_not_contains _ _ _ _ h]

/-- A placeholder whose mapped metadata field is absent is skipped: the
segment and the metadata are unchanged and nothing is raised. -/
theorem patternStep_absent (kf : String × String) (st : String × SongDict)
    (h : st.2.lookup kf.2 = none) : patternStep kf st = .ok st := by
  obtain ⟨part, metadata⟩ := st
  simp only at h
  simp [patternStep, h]

/-- The whole placeholder loop is skipped when every mapped field is
absent. -/
theorem foldlM_patternStep_absent (patterns : List (String × String))
    (part : String) (md : SongDict)
    (h : ∀ kf ∈ patterns, md.lookup kf.2 = none) :
    patterns.foldlM (fun st kf => patternStep kf st) (part, md) =
      .ok (part, md) := by
  induction patterns with
  | nil => rfl
  | cons kf rest ih =>
    rw [List.foldlM_cons, patternStep_absent kf (part, md)
      (h kf (List.mem_cons_self kf rest))]
    have : ∀ kf' ∈ rest, md.lookup kf'.2 = none :=
      fun kf' hk => h kf' (List.mem_cons_of_mem kf hk)
    calc (Except.ok (part, md) >>= fun b =>
            rest.foldlM (fun st kf => patternStep kf st) b)
        = rest.foldlM (fun st kf => patternStep kf st) (part, md) := rfl
      _ = .ok (part, md) := ih this

/-- A segment whose placeholders all lack backing metadata passes through
the placeholder loop untouched; only character sanitization applies. -/
theorem processPart_absent (patterns : List (String × String))
    (md : SongDict) (part : String)
    (h : ∀ kf ∈ patterns, md.lookup kf.2 = none) :
    processPart patterns md part =
      .ok (CHARACTER_REPLACEMENTS.foldl charStep part, md) := by
  unfold processPart
  rw [foldlM_patternStep_absent patterns part md h]

/-- All segments pass through untouched (modulo character sanitization) when
every mapped field is absent. -/
theorem processParts_absent (patterns : List (String × String))
    (md : SongDict) (parts : List String)
    (h : ∀ kf ∈ patterns, md.lookup kf.2 = none) :
    processParts patterns md parts =
      .ok (parts.map (fun p => CHARACTER_REPLACEMENTS.foldl charStep p),
        md) := by
  induction parts with
  | nil => rfl
  | cons part rest ih =>
    rw [processParts, processPart_absent patterns md part h]
    dsimp only
    rw [ih]
    rfl

/-- In the all-absent special case, template expansion returns exactly the
split template segments, character-sanitized and rejoined, with every
placeholder left literal and the metadata untouched. -/
theorem template_missing_fields_left_literal (cwd template : String)
    (metadata : SongDict) (patterns : List (String × String))
    (hfields : ∀ kf ∈ patterns, metadata.lookup kf.2 = none)
    (hsugg : containsSub template.data "%suggested%".data = false)
    (hcwd : template ≠ cwd) (hspecial : template ≠ "%suggested%") :
    template_to_filepath cwd template metadata patterns =
      match joinParts template ((collectParts template.data).map
        (fun p => CHARACTER_REPLACEMENTS.foldl charStep (⟨p⟩ : String))) with
      | .error e => .error e
      | .ok fp => .ok (fp, metadata) := by
  unfold template_to_filepath
  rw [if_neg (by simp [hcwd, hspecial])]
  rw [replaceStr_of_not_contains _ _ _ hsugg]
  unfold replace_template_patterns
  dsimp only
  rw [processParts_absent patterns metadata _ hfields]
  dsimp only
  rw [List.map_map]
  simp only [Function.comp_def]

/-- Concrete instance of the all-absent special case: a template whose
placeholders have no backing metadata expands to itself. -/
theorem template_missing_fields_left_literal_witness :
    template_to_filepath "/cwd" "%artist%/%title%" [("foo", "bar")]
      TEMPLATE_PATTERNS =
      match joinParts "%artist%/%title%"
        ((collectParts "%artist%/%title%".data).map
          (fun p => CHARACTER_REPLACEMENTS.foldl charStep
            (⟨p⟩ : String))) with
      | .error e => .error e
      | .ok fp => .ok (fp, [("foo", "bar")]) :=
  template_missing_fields_left_literal "/cwd" "%artist%/%title%"
    [("foo", "bar")] TEMPLATE_PATTERNS (by decide) (by decide)
    (by decide) (by decide)

/-- Dict assignment changes no other key. -/
theorem lookup_setKey_ne (md : SongDict) (k v f : String) (h : f ≠ k) :
    (setKey md k v).lookup f = md.lookup f := by
  induction md with
  | nil => simp [setKey, List.lookup_cons, beq_false_of_ne h]
  | cons kv rest ih =>
    obtain ⟨k', v'⟩ := kv
    rw [setKey]
    split
    · rename_i hk
      subst hk
      simp [List.lookup_cons, beq_false_of_ne h]
    · rw [List.lookup_cons, List.lookup_cons]
      cases hfk : f == k'
      · simpa [hfk] using ih
      · simp [hfk]

/-- Dict assignment makes the assigned key present with the new value. -/
theorem lookup_setKey_eq (md : SongDict) (k v : String) :
    (setKey md k v).lookup k = some v := by
  induction md with
  | nil => simp [setKey, List.lookup_cons]
  | cons kv rest ih =>
    obtain ⟨k', v'⟩ := kv
    rw [setKey]
    split
    · simp [List.lookup_cons]
    · rename_i hk
      rw [List.lookup_cons]
      have hbeq : (k == k') = false := beq_false_of_ne (fun h => hk h.symm)
      simp [hbeq, ih]

/-- One placeholder iteration never changes which metadata fields are
present: it only ever rewrites the value of an already-present field. -/
theorem patternStep_isSome (kf : String × String) (st st' : String × SongDict)
    (hok : patternStep kf st = .ok st') (f : String) :
    (st'.2.lookup f).isSome = (st.2.lookup f).isSome := by
  obtain ⟨part, metadata⟩ := st
  rw [patternStep] at hok
  split at hok
  · rename_i hguard
    have hpres : (metadata.lookup kf.2).isSome = true :=
      (Bool.and_eq_true_iff.mp hguard).2
    split at hok
    · split at hok
      · cases hok
      · rename_i track hsplit
        cases hok
        by_cases hf : f = kf.2
        · subst hf
          rw [lookup_setKey_eq]
          simp [hpres]
        · simp [lookup_setKey_ne metadata kf.2 (zeroPad2 track) f hf]
    · cases hok
      rfl
  · cases hok
    rfl

/-- The whole placeholder loop never changes which metadata fields are
present. -/
theorem foldlM_patternStep_isSome (patterns : List (String × String))
    (st st' : String × SongDict)
    (hok : patterns.foldlM (fun st kf => patternStep kf st) st = .ok st')
    (f : String) :
    (st'.2.lookup f).isSome = (st.2.lookup f).isSome := by
  induction patterns generalizing st with
  | nil =>
    rw [List.foldlM_nil] at hok
    cases hok
    rfl
  | cons kf rest ih =>
    rw [List.foldlM_cons] at hok
    cases hstep : patternStep kf st with
    | error e => rw [hstep] at hok; cases hok
    | ok mid =>
      rw [hstep] at hok
      have hrest : rest.foldlM (fun st kf => patternStep kf st) mid =
          .ok st' := hok
      rw [ih mid hrest, patternStep_isSome kf st mid hstep f]

/-- Segment processing never changes which metadata fields are present. -/
theorem processPart_isSome (patterns : List (String × String))
    (md : SongDict) (part part' : String) (md' : SongDict)
    (hok : processPart patterns md part = .ok (part', md')) (f : String) :
    (md'.lookup f).isSome = (md.lookup f).isSome := by
  rw [processPart] at hok
  cases hst : patterns.foldlM (fun st kf => patternStep kf st) (part, md) with
  | error e =>
    rw [hst] at hok
    cases hok
  | ok st =>
    obtain ⟨p1, m1⟩ := st
    rw [hst] at hok
    simp only [Except.ok.injEq, Prod.mk.injEq] at hok
    obtain ⟨-, hmd⟩ := hok
    subst hmd
    exact foldlM_patternStep_isSome patterns (part, md) (p1, m1) hst f

/-- Placeholders whose backing field is absent can be dropped from the
pattern table without changing the placeholder loop: at each state whose
present fields are those of the original metadata, an absent-field
placeholder is skipped (no substitution, no mutation, no exception) and all
other placeholders behave identically. -/
theorem foldlM_patternStep_filter (patterns : List (String × String))
    (metadata : SongDict) (st : String × SongDict)
    (hpres : ∀ f, (st.2.lookup f).isSome = (metadata.lookup f).isSome) :
    patterns.foldlM (fun st kf => patternStep kf st) st =
      (patterns.filter (fun kf => (metadata.lookup kf.2).isSome)).foldlM
        (fun st kf => patternStep kf st) st := by
  induction patterns generalizing st with
  | nil => rfl
  | cons kf rest ih =>
    rw [List.foldlM_cons, List.filter_cons]
    cases hp : (metadata.lookup kf.2).isSome with
    | false =>
      rw [if_neg (by simp [hp])]
      have habs : st.2.lookup kf.2 = none := by
        have := hpres kf.2
        rw [hp] at this
        exact Option.not_isSome_iff_eq_none.mp (by simp [this])
      rw [patternStep_absent kf st habs]
      calc (Except.ok st >>= fun b =>
              rest.foldlM (fun st kf => patternStep kf st) b)
          = rest.foldlM (fun st kf => patternStep kf st) st := rfl
        _ = _ := ih st hpres
    | true =>
      rw [if_pos (by simp [hp]), List.foldlM_cons]
      cases hstep : patternStep kf st with
      | error e => rfl
      | ok mid =>
        have hpres' : ∀ f, (mid.2.lookup f).isSome =
            (metadata.lookup f).isSome := fun f =>
          (patternStep_isSome kf st mid hstep f).trans (hpres f)
        calc (Except.ok mid >>= fun b =>
                rest.foldlM (fun st kf => patternStep kf st) b)
            = rest.foldlM (fun st kf => patternStep kf st) mid := rfl
          _ = (rest.filter (fun kf => (metadata.lookup kf.2).isSome)).foldlM
                (fun st kf => patternStep kf st) mid := ih mid hpres'

/-- Absent-field placeholders can be dropped from the pattern table without
changing the processing of one segment. -/
theorem processPart_filter (patterns : List (String × String))
    (metadata md : SongDict) (part : String)
    (hpres : ∀ f, (md.lookup f).isSome = (metadata.lookup f).isSome) :
    processPart patterns md part =
      processPart (patterns.filter (fun kf => (metadata.lookup kf.2).isSome))
        md part := by
  rw [processPart, processPart,
    foldlM_patternStep_filter patterns metadata (part, md) hpres]

/-- Absent-field placeholders can be dropped from the pattern table without
changing the processing of all segments. -/
theorem processParts_filter (patterns : List (String × String))
    (metadata md : SongDict) (parts : List String)
    (hpres : ∀ f, (md.lookup f).isSome = (metadata.lookup f).isSome) :
    processParts patterns md parts =
      processParts (patterns.filter (fun kf => (metadata.lookup kf.2).isSome))
        md parts := by
  induction parts generalizing md with
  | nil => rfl
  | cons part rest ih =>
    rw [processParts, processParts,
      ← processPart_filter patterns metadata md part hpres]
    cases hpm : processPart patterns md part with
    | error e => rfl
    | ok pm =>
      obtain ⟨p1, m1⟩ := pm
      have hpres' : ∀ f, (m1.lookup f).isSome =
          (metadata.lookup f).isSome := fun f =>
        (processPart_isSome patterns md part p1 m1 hpm f).trans (hpres f)
      dsimp only
      rw [ih m1 hpres']

/-- Claim C7, counterexample: a placeholder whose backing metadata field is
absent does not guarantee that expansion "raises no exception": with the
artist field absent but a plain track number present, the track placeholder
raises (`None.group(1)`, the C5 defect) and the whole call fails, so the
absent `%artist%` placeholder never makes it into any returned path. -/
theorem template_missing_field_still_raises_counterexample :
    List.lookup "artist" ([("tracknumber", "3")] : SongDict) = none ∧
    template_to_filepath "/cwd" "%artist%/%track2%" [("tracknumber", "3")]
        TEMPLATE_PATTERNS = .error () :=
  ⟨rfl, rfl⟩

/-- Claim C7 (amended): a placeholder whose backing metadata field is absent
from the mapping is inert, for every template, metadata mapping and pattern
table: removing all absent-field placeholders from the pattern table leaves
`template_to_filepath` unchanged (same path, same final metadata, same
raise-or-return).  In particular an absent-field placeholder is never
substituted — its text stays literal in its segment — never mutates the
metadata, and never itself raises; but the call as a whole may still raise
for an unrelated present track-number field without a total (the C5
defect), so "raises no exception" does not hold of the whole call. -/
theorem template_absent_placeholders_inert (cwd template : String)
    (metadata : SongDict) (patterns : List (String × String)) :
    template_to_filepath cwd template metadata patterns =
      template_to_filepath cwd template metadata
        (patterns.filter (fun kf => (metadata.lookup kf.2).isSome)) := by
  rw [template_to_filepath, template_to_filepath]
  split
  · rfl
  · rw [replace_template_patterns, replace_template_patterns,
      processParts_filter patterns metadata metadata _ (fun f => rfl)]

/-!
## Claim C8
-/

/-- Claim C8: with `all_excludes = True`, both exclude rules must hold
simultaneously to drop a song: song0 (Muse / Take a Bow) satisfies both and
is filtered; song1 (Bon Iver / Skinny Love) satisfies neither and is
matched. -/
theorem filter_all_excludes_example :
    filter_google_songs
      [[("artist", FieldValue.single "Muse"),
        ("title", FieldValue.single "Take a Bow")],
       [("artist", FieldValue.single "Bon Iver"),
        ("title", FieldValue.single "Skinny Love")]]
      [] [("artist", "Muse"), ("title", "Take")] false true =
    ([[("artist", FieldValue.single "Bon Iver"),
       ("title", FieldValue.single "Skinny Love")]],
     [[("artist", FieldValue.single "Muse"),
       ("title", FieldValue.single "Take a Bow")]]) := by decide

/-!
## Claim C9
-/

/-- One placeholder iteration only ever writes a track-number field back
into the metadata dict: every other field is unchanged. -/
theorem patternStep_frame (kf : String × String) (st st' : String × SongDict)
    (hok : patternStep kf st = .ok st') (f : String)
    (h1 : f ≠ "tracknumber") (h2 : f ≠ "track_number") :
    st'.2.lookup f = st.2.lookup f := by
  obtain ⟨part, metadata⟩ := st
  rw [patternStep] at hok
  split at hok
  · split at hok
    · rename_i hguard htrack
      split at hok
      · cases hok
      · rename_i track hsplit
        cases hok
        rcases Bool.or_eq_true_iff.mp htrack with ht | ht
        · have : kf.2 = "tracknumber" := by simpa using ht
          simpa using lookup_setKey_ne metadata kf.2 (zeroPad2 track) f
            (this ▸ h1)
        · have : kf.2 = "track_number" := by simpa using ht
          simpa using lookup_setKey_ne metadata kf.2 (zeroPad2 track) f
            (this ▸ h2)
    · cases hok
      rfl
  · cases hok
    rfl

/-- The placeholder loop only ever writes track-number fields. -/
theorem foldlM_patternStep_frame (patterns : List (String × String))
    (st st' : String × SongDict)
    (hok : patterns.foldlM (fun st kf => patternStep kf st) st = .ok st')
    (f : String) (h1 : f ≠ "tracknumber") (h2 : f ≠ "track_number") :
    st'.2.lookup f = st.2.lookup f := by
  induction patterns generalizing st with
  | nil =>
    rw [List.foldlM_nil] at hok
    cases hok
    rfl
  | cons kf rest ih =>
    rw [List.foldlM_cons] at hok
    cases hstep : patternStep kf st with
    | error e => rw [hstep] at hok; cases hok
    | ok mid =>
      rw [hstep] at hok
      have hrest : rest.foldlM (fun st kf => patternStep kf st) mid =
          .ok st' := hok
      rw [ih mid hrest, patternStep_frame kf st mid hstep f h1 h2]

/-- Segment processing only ever writes track-number fields. -/
theorem processPart_frame (patterns : List (String × String))
    (md : SongDict) (part part' : String) (md' : SongDict)
    (hok : processPart patterns md part = .ok (part', md'))
    (f : String) (h1 : f ≠ "tracknumber") (h2 : f ≠ "track_number") :
    md'.lookup f = md.lookup f := by
  rw [processPart] at hok
  cases hst : patterns.foldlM (fun st kf => patternStep kf st) (part, md) with
  | error e =>
    rw [hst] at hok
    cases hok
  | ok st =>
    obtain ⟨p1, m1⟩ := st
    rw [hst] at hok
    simp only [Except.ok.injEq, Prod.mk.injEq] at hok
    obtain ⟨-, hmd⟩ := hok
    subst hmd
    exact foldlM_patternStep_frame patterns (part, md) (p1, m1) hst f h1 h2

/-- Processing all segments only ever writes track-number fields. -/
theorem processParts_frame (patterns : List (String × String))
    (md : SongDict) (parts : List String) (parts' : List String)
    (md' : SongDict)
    (hok : processParts patterns md parts = .ok (parts', md'))
    (f : String) (h1 : f ≠ "tracknumber") (h2 : f ≠ "track_number") :
    md'.lookup f = md.lookup f := by
  induction parts generalizing md parts' with
  | nil =>
    rw [processParts] at hok
    cases hok
    rfl
  | cons part rest ih =>
    rw [processParts] at hok
    cases hpm : processPart patterns md part with
    | error e =>
      rw [hpm] at hok
      cases hok
    | ok pm =>
      obtain ⟨p1, m1⟩ := pm
      rw [hpm] at hok
      dsimp only at hok
      cases hrm : processParts patterns m1 rest with
      | error e =>
        rw [hrm] at hok
        cases hok
      | ok rm =>
        obtain ⟨ps2, m2⟩ := rm
        rw [hrm] at hok
        simp only [Except.ok.injEq, Prod.mk.injEq] at hok
        obtain ⟨-, hmd⟩ := hok
        subst hmd
        rw [ih m1 ps2 hrm, processPart_frame patterns md part p1 m1 hpm f h1 h2]

/-- Claim C9, counterexample: template expansion is not free of side effects
on the caller's metadata mapping: expanding a track placeholder rewrites the
track field (here from `"3/12"` to `"03"`). -/
theorem template_mutates_metadata_counterexample :
    template_to_filepath "/cwd" "%track%" [("tracknumber", "3/12")]
        TEMPLATE_PATTERNS =
      .ok ("03", [("tracknumber", "03")]) ∧
    ([("tracknumber", "03")] : SongDict) ≠ [("tracknumber", "3/12")] :=
  ⟨rfl, by decide⟩

/-- Claim C9 (amended): template expansion leaves every metadata field other
than the two track-number fields (`tracknumber`, `track_number`) unchanged;
only a track-number field may be rewritten (to its zero-padded single
value), and no field is added or removed under any other name. -/
theorem template_frame_non_track (cwd template : String)
    (metadata : SongDict) (patterns : List (String × String))
    (fp : String) (md' : SongDict)
    (hok : template_to_filepath cwd template metadata patterns =
      .ok (fp, md'))
    (f : String) (h1 : f ≠ "tracknumber") (h2 : f ≠ "track_number") :
    md'.lookup f = metadata.lookup f := by
  rw [template_to_filepath] at hok
  split at hok
  · simp only [Except.ok.injEq, Prod.mk.injEq] at hok
    rw [← hok.2]
  · rw [replace_template_patterns] at hok
    split at hok
    · cases hok
    · rename_i ps m1 hres
      split at hok
      · cases hok
      · rename_i fp2 hfp
        simp only [Except.ok.injEq, Prod.mk.injEq] at hok
        obtain ⟨-, hmd⟩ := hok
        subst hmd
        exact processParts_frame patterns metadata _ ps m1 hres f h1 h2

/-- Witness for C9 (amended): the concrete mutating expansion changes no
field other than the track number. -/
theorem template_frame_non_track_witness :
    template_to_filepath "/cwd" "%track%" [("tracknumber", "3/12")]
        TEMPLATE_PATTERNS =
      .ok ("03", [("tracknumber", "03")]) ∧
    List.lookup "artist" ([("tracknumber", "03")] : SongDict) =
      List.lookup "artist" ([("tracknumber", "3/12")] : SongDict) :=
  ⟨rfl, template_frame_non_track "/cwd" "%track%" [("tracknumber", "3/12")]
    TEMPLATE_PATTERNS "03" [("tracknumber", "03")] rfl "artist"
    (by decide) (by decide)⟩

/-!
## Claim C10
-/

/-- Claim C10: whenever `exclude_patterns` is an actual list (the `is not
None` branch), `exclude_filepaths` returns all filepaths as included and
nothing as excluded — the regex patterns are never applied. -/
theorem exclude_filepaths_patterns_never_applied (filepaths : List String)
    (patterns : List String) :
    exclude_filepaths filepaths (some patterns) = .ok (filepaths, []) := rfl

end GmwSpec
